import Mathlib

/-
  Verification of the runtime-settings resolution engine
  (lib/runtime-settings: filters, entry compilation, store merge,
  typed-value cache with secret-epoch invalidation, watcher snapshots).

  The Rust source is shallowly embedded: HashMaps become association
  lists (lookup = first matching key; the HashMap invariant of unique
  keys is taken as a hypothesis where a theorem needs it), serde_json
  values become the inductive Json below, and the two external crates
  the filter code calls into (regex, semver's parser) plus the RNG of
  the probability filter are abstracted as an explicit record Ext of
  oracle functions, since their internals are not part of this
  repository.  Fallible Rust code returns Option (none = the error
  branch; error payloads are logging detail only).
-/

namespace RS

/-- JSON tree as in serde_json. Numbers are modelled as integers: no claim
depends on float payloads, and the engine never inspects numeric values. -/
inductive Json where
  | null : Json
  | bool (b : Bool) : Json
  | num (n : Int) : Json
  | str (s : String) : Json
  | arr (items : List Json) : Json
  | obj (fields : List (String × Json)) : Json
  deriving Repr

mutual

/-- Structural equality test on Json (PartialEq of serde_json::Value). -/
def Json.beq : Json → Json → Bool
  | .null, .null => true
  | .bool a, .bool b => a == b
  | .num a, .num b => a == b
  | .str a, .str b => a == b
  | .arr a, .arr b => Json.beqList a b
  | .obj a, .obj b => Json.beqFields a b
  | _, _ => false

/-- Elementwise equality of Json arrays. -/
def Json.beqList : List Json → List Json → Bool
  | [], [] => true
  | x :: xs, y :: ys => Json.beq x y && Json.beqList xs ys
  | _, _ => false

/-- Elementwise equality of Json object field lists. -/
def Json.beqFields : List (String × Json) → List (String × Json) → Bool
  | [], [] => true
  | (k1, v1) :: xs, (k2, v2) :: ys => k1 == k2 && Json.beq v1 v2 && Json.beqFields xs ys
  | _, _ => false

end

instance : BEq Json := ⟨Json.beq⟩

/-- Value::get(key) on an object: field lookup; None on non-objects. -/
def Json.objGet (j : Json) (key : String) : Option Json :=
  match j with
  | .obj fields => (fields.find? (fun kv => kv.1 == key)).map (fun kv => kv.2)
  | _ => none

/-- Association-list lookup: the value of the first pair whose key matches.
Stands in for HashMap::get. -/
def assocGet {β : Type _} (l : List (String × β)) (key : String) : Option β :=
  (l.find? (fun kv => kv.1 == key)).map (fun kv => kv.2)

/-- Keys of an association list are pairwise distinct (the HashMap invariant). -/
def keysNodup {β : Type _} (l : List (String × β)) : Prop :=
  (l.map Prod.fst).Nodup

/-- A compiled regular expression from the regex crate, abstracted to its
matching behaviour.  The anchoring and case-insensitivity that
compile_anchored_regex bakes into the pattern live inside isMatch. -/
structure RegexC where
  isMatch : String → Bool

/-- A compiled probability filter. Parsing the f64 and drawing from the RNG
are external to the embedding; outcome is the check result of the one call
under consideration. -/
structure ProbF where
  outcome : Bool

/-- Semantic version (numeric core of semver::Version). -/
structure Version where
  major : Nat
  minor : Nat
  patch : Nat
  deriving DecidableEq, Repr

/-- Lexicographic strict order on versions (semver ordering on
pre-release-free versions). -/
def Version.ltv (a b : Version) : Bool :=
  a.major < b.major ∨ (a.major = b.major ∧
    (a.minor < b.minor ∨ (a.minor = b.minor ∧ a.patch < b.patch)))

/-- Lexicographic non-strict order on versions. -/
def Version.lev (a b : Version) : Bool :=
  Version.ltv a b || a == b

/-- External oracles: regex compilation (compile_anchored_regex /
RegexBuilder), probability-filter compilation (f64 parse + the RNG draw),
and semver::Version::parse.  none models the Err branch. -/
structure Ext where
  compileRegex : String → Option RegexC
  probCompile : String → Option ProbF
  parseVersion : String → Option Version

/-- Result of a trait-based (non-compiled) filter check. -/
inductive FilterResult where
  | Match : FilterResult
  | NoMatch : FilterResult
  | NotApplicable : FilterResult
  deriving DecidableEq, Repr

/-- HTTP request carried by the dynamic context. -/
structure Request where
  method : String
  path : String
  headers : List (String × String)

/-- Request::get_header — case-insensitive key lookup over the headers. -/
def Request.get_header (r : Request) (key : String) : Option String :=
  ((r.headers.find? (fun kv => kv.1.toLower == key.toLower)).map (fun kv => kv.2))

/-- Request::host — the "host" header. -/
def Request.host (r : Request) : Option String := r.get_header "host"

/-- Request::ip — the "x-real-ip" header. -/
def Request.ip (r : Request) : Option String := r.get_header "x-real-ip"

/-- Request::email — the "x-real-email" header. -/
def Request.email (r : Request) : Option String := r.get_header "x-real-email"

/-- CustomContext: a stack of eagerly merged snapshots.  The Rust Vec keeps
the top snapshot last; this list keeps it at the head. -/
structure CustomContext where
  snapshots : List (List (String × String))

/-- CustomContext::new. -/
def CustomContext.new : CustomContext := ⟨[]⟩

/-- CustomContext::push_layer — merge the incoming layer over the current
top snapshot (entry().or_insert: a binding from the old top is added only
when its key is absent from the new layer) and push the merged snapshot. -/
def CustomContext.push_layer (c : CustomContext) (layer : List (String × String)) :
    CustomContext :=
  match c.snapshots.head? with
  | some current =>
      ⟨(layer ++ current.filter
          (fun kv => !(layer.any (fun kv2 => kv2.1 == kv.1)))) :: c.snapshots⟩
  | none => ⟨layer :: c.snapshots⟩

/-- CustomContext::pop_layer — discard the top snapshot. -/
def CustomContext.pop_layer (c : CustomContext) : CustomContext :=
  ⟨c.snapshots.tail⟩

/-- CustomContext::get — lookup in the top snapshot only. -/
def CustomContext.get (c : CustomContext) (key : String) : Option String :=
  c.snapshots.head?.bind (fun m => assocGet m key)

/-- CustomContext::as_map — the top snapshot, if any. -/
def CustomContext.as_map (c : CustomContext) : Option (List (String × String)) :=
  c.snapshots.head?

/-- Context for dynamic filter evaluation. -/
structure DynamicContext where
  request : Option Request
  custom : CustomContext

/-- Static (process identity) context, immutable after build. -/
structure StaticContext where
  application : String
  server : String
  environment : List (String × String)
  libraries_versions : List (String × Version)
  mcs_run_env : Option String

/-- splitn(2, sep): the text before the first occurrence of sep and the rest;
none when sep does not occur (the parts.len() != 2 branch). -/
def split2 (s sep : String) : Option (String × String) :=
  match s.splitOn sep with
  | [] => none
  | [_] => none
  | a :: rest => some (a, String.intercalate sep rest)

/-- check_regex helper of the trait filters: compile the anchored pattern on
every call; a pattern that fails to compile yields NoMatch with a warning. -/
def check_regex (E : Ext) (pattern value : String) : FilterResult :=
  match E.compileRegex pattern with
  | some re => if re.isMatch value then .Match else .NoMatch
  | none => .NoMatch

/-- Loop body of check_map_filter over the comma-separated pairs. -/
def check_map_pairs (E : Ext) (map : List (String × String)) :
    List String → FilterResult
  | [] => .Match
  | pair :: rest =>
    let p := pair.trim
    if p = "" then check_map_pairs E map rest
    else
      match split2 p "=" with
      | none => .NoMatch
      | some (k, vp) =>
        match assocGet map k.trim with
        | some actual =>
            if check_regex E vp.trim actual = .Match then check_map_pairs E map rest
            else .NoMatch
        | none => .NoMatch

/-- check_map_filter: parse "K1=v1,K2=v2" and check every pair against the map. -/
def check_map_filter (E : Ext) (pattern : String) (map : List (String × String)) :
    FilterResult :=
  check_map_pairs E map (pattern.splitOn ",")

/-- Version comparison operator of the library_version filter. -/
inductive VersionOp where
  | Eq : VersionOp
  | Gt : VersionOp
  | Gte : VersionOp
  | Lt : VersionOp
  | Lte : VersionOp
  deriving DecidableEq, Repr

/-- VersionOp::compare — installed against required. -/
def VersionOp.compare (op : VersionOp) (installed required : Version) : Bool :=
  match op with
  | .Eq => installed == required
  | .Gt => Version.ltv required installed
  | .Gte => Version.lev required installed
  | .Lt => Version.ltv installed required
  | .Lte => Version.lev installed required

/-- Operator search of the library_version filter: the source probes for
the first occurrence of each operator, in this exact order. -/
def find_version_op (spec : String) : Option (String × VersionOp × String) :=
  match split2 spec ">=" with
  | some (a, b) => some (a, .Gte, b)
  | none =>
    match split2 spec "<=" with
    | some (a, b) => some (a, .Lte, b)
    | none =>
      match split2 spec ">" with
      | some (a, b) => some (a, .Gt, b)
      | none =>
        match split2 spec "<" with
        | some (a, b) => some (a, .Lt, b)
        | none =>
          match split2 spec "=" with
          | some (a, b) => some (a, .Eq, b)
          | none => none

/-- Loop body of the trait LibraryVersionFilter::check over the
comma-separated constraints. -/
def check_lib_specs (E : Ext) (ctx : StaticContext) : List String → FilterResult
  | [] => .Match
  | spec :: rest =>
    let s := spec.trim
    if s = "" then check_lib_specs E ctx rest
    else
      match find_version_op s with
      | none => .NoMatch
      | some (pkg, op, vs) =>
        match assocGet ctx.libraries_versions pkg.trim with
        | none => .NoMatch
        | some installed =>
          match E.parseVersion vs.trim with
          | none => .NoMatch
          | some required =>
            if op.compare installed required then check_lib_specs E ctx rest
            else .NoMatch

/-- Names registered in the STATIC_FILTERS vector. -/
def STATIC_FILTER_NAMES : List String :=
  ["application", "server", "environment", "mcs_run_env", "library_version"]

/-- Names registered in the DYNAMIC_FILTERS vector. -/
def DYNAMIC_FILTER_NAMES : List String :=
  ["url-path", "host", "email", "ip", "header", "context", "probability"]

/-- Dispatch of the trait StaticFilter::check implementations by name.
Note the mcs_run_env arm: absent process value yields NotApplicable here. -/
def static_filter_check (E : Ext) (name pattern : String) (ctx : StaticContext) :
    FilterResult :=
  match name with
  | "application" => check_regex E pattern ctx.application
  | "server" => check_regex E pattern ctx.server
  | "environment" => check_map_filter E pattern ctx.environment
  | "mcs_run_env" =>
      match ctx.mcs_run_env with
      | some env => check_regex E pattern env
      | none => .NotApplicable
  | "library_version" => check_lib_specs E ctx (pattern.splitOn ",")
  | _ => .NotApplicable

/-- check_static_filters of filters/mod.rs — the function merge_settings
consults.  Dynamic names are skipped, unknown names ignored, and a static
filter passes unless it returns NoMatch (NotApplicable passes). -/
def check_static_filters (E : Ext) (filters : List (String × String))
    (ctx : StaticContext) : Bool :=
  filters.all (fun np =>
    if DYNAMIC_FILTER_NAMES.contains np.1 then true
    else if STATIC_FILTER_NAMES.contains np.1 then
      match static_filter_check E np.1 np.2 ctx with
      | .NoMatch => false
      | _ => true
    else true)

/-- Pre-compiled static filters (static_filters.rs). -/
inductive CompiledStaticFilter where
  | application (re : RegexC) : CompiledStaticFilter
  | server (re : RegexC) : CompiledStaticFilter
  | mcsRunEnv (re : RegexC) : CompiledStaticFilter
  | environment (conds : List (String × RegexC)) : CompiledStaticFilter
  | libraryVersion (constraints : List (String × VersionOp × Version)) : CompiledStaticFilter

/-- CompiledStaticFilter::check.  The mcsRunEnv arm returns false when the
process mcs_run_env is absent. -/
def CompiledStaticFilter.check : CompiledStaticFilter → StaticContext → Bool
  | .application re, ctx => re.isMatch ctx.application
  | .server re, ctx => re.isMatch ctx.server
  | .mcsRunEnv re, ctx =>
      match ctx.mcs_run_env with
      | some env => re.isMatch env
      | none => false
  | .environment conds, ctx =>
      conds.all (fun c =>
        match assocGet ctx.environment c.1 with
        | some v => c.2.isMatch v
        | none => false)
  | .libraryVersion cs, ctx =>
      cs.all (fun c =>
        match assocGet ctx.libraries_versions c.1 with
        | some installed => c.2.1.compare installed c.2.2
        | none => false)

/-- CompiledEnvironmentFilter::compile loop over the comma-separated pairs
(also the body of CompiledContextFilter::compile, which is identical). -/
def compile_env_conditions (E : Ext) : List String → Option (List (String × RegexC))
  | [] => some []
  | pair :: rest =>
    let p := pair.trim
    if p = "" then compile_env_conditions E rest
    else
      match split2 p "=" with
      | none => none
      | some (k, vp) =>
        match E.compileRegex vp.trim with
        | none => none
        | some re => (compile_env_conditions E rest).map (fun cs => (k.trim, re) :: cs)

/-- CompiledHeaderFilter::compile loop — like the environment one but the
key is lowercased for case-insensitive matching. -/
def compile_header_conditions (E : Ext) : List String → Option (List (String × RegexC))
  | [] => some []
  | pair :: rest =>
    let p := pair.trim
    if p = "" then compile_header_conditions E rest
    else
      match split2 p "=" with
      | none => none
      | some (k, vp) =>
        match E.compileRegex vp.trim with
        | none => none
        | some re =>
            (compile_header_conditions E rest).map (fun cs => (k.trim.toLower, re) :: cs)

/-- CompiledLibraryVersionFilter::compile loop over the constraints. -/
def compile_lib_constraints (E : Ext) :
    List String → Option (List (String × VersionOp × Version))
  | [] => some []
  | spec :: rest =>
    let s := spec.trim
    if s = "" then compile_lib_constraints E rest
    else
      match find_version_op s with
      | none => none
      | some (pkg, op, vs) =>
        match E.parseVersion vs.trim with
        | none => none
        | some v => (compile_lib_constraints E rest).map (fun cs => (pkg.trim, op, v) :: cs)

/-- Known static filter names (KNOWN_STATIC_FILTER_NAMES). -/
def KNOWN_STATIC_FILTER_NAMES : List String :=
  ["application", "server", "mcs_run_env", "environment", "library_version"]

/-- is_static_filter. -/
def is_static_filter (name : String) : Bool :=
  KNOWN_STATIC_FILTER_NAMES.contains name

/-- compile_static_filter factory — unknown names are an error here, but
Setting::compile only calls it for names satisfying is_static_filter. -/
def compile_static_filter (E : Ext) (name pattern : String) :
    Option CompiledStaticFilter :=
  match name with
  | "application" => (E.compileRegex pattern).map CompiledStaticFilter.application
  | "server" => (E.compileRegex pattern).map CompiledStaticFilter.server
  | "mcs_run_env" => (E.compileRegex pattern).map CompiledStaticFilter.mcsRunEnv
  | "environment" =>
      (compile_env_conditions E (pattern.splitOn ",")).map CompiledStaticFilter.environment
  | "library_version" =>
      (compile_lib_constraints E (pattern.splitOn ",")).map CompiledStaticFilter.libraryVersion
  | _ => none

/-- Pre-compiled dynamic filters (dynamic_filters.rs). -/
inductive CompiledDynamicFilter where
  | urlPath (re : RegexC) : CompiledDynamicFilter
  | host (re : RegexC) : CompiledDynamicFilter
  | email (re : RegexC) : CompiledDynamicFilter
  | ip (re : RegexC) : CompiledDynamicFilter
  | header (conds : List (String × RegexC)) : CompiledDynamicFilter
  | context (conds : List (String × RegexC)) : CompiledDynamicFilter
  | probability (p : ProbF) : CompiledDynamicFilter

/-- Case-insensitive header lookup used by CompiledHeaderFilter::check
(the source builds a lowercased map; keys in conds are already lowercase). -/
def headers_lower_get (headers : List (String × String)) (key : String) :
    Option String :=
  (headers.find? (fun kv => kv.1.toLower == key)).map (fun kv => kv.2)

/-- CompiledDynamicFilter::check.  Request-derived filters pass when the
request (or the specific header) is absent; the context filter requires
every key to be present and matching in the top custom snapshot. -/
def CompiledDynamicFilter.check : CompiledDynamicFilter → DynamicContext → Bool
  | .urlPath re, ctx =>
      match ctx.request with
      | some req => re.isMatch req.path
      | none => true
  | .host re, ctx =>
      match ctx.request with
      | some req =>
          match req.host with
          | some h => re.isMatch h
          | none => true
      | none => true
  | .email re, ctx =>
      match ctx.request with
      | some req =>
          match req.email with
          | some e => re.isMatch e
          | none => true
      | none => true
  | .ip re, ctx =>
      match ctx.request with
      | some req =>
          match req.ip with
          | some i => re.isMatch i
          | none => true
      | none => true
  | .header conds, ctx =>
      match ctx.request with
      | some req =>
          conds.all (fun c =>
            match headers_lower_get req.headers c.1 with
            | some v => c.2.isMatch v
            | none => false)
      | none => true
  | .context conds, ctx =>
      conds.all (fun c =>
        match ctx.custom.get c.1 with
        | some v => c.2.isMatch v
        | none => false)
  | .probability p, _ => p.outcome

/-- compile_dynamic_filter factory — an unrecognized name is an error
(which Setting::compile then swallows). -/
def compile_dynamic_filter (E : Ext) (name pattern : String) :
    Option CompiledDynamicFilter :=
  match name with
  | "url-path" => (E.compileRegex pattern).map CompiledDynamicFilter.urlPath
  | "host" => (E.compileRegex pattern).map CompiledDynamicFilter.host
  | "email" => (E.compileRegex pattern).map CompiledDynamicFilter.email
  | "ip" => (E.compileRegex pattern).map CompiledDynamicFilter.ip
  | "header" =>
      (compile_header_conditions E (pattern.splitOn ",")).map CompiledDynamicFilter.header
  | "context" =>
      (compile_env_conditions E (pattern.splitOn ",")).map CompiledDynamicFilter.context
  | "probability" => (E.probCompile pattern).map CompiledDynamicFilter.probability
  | _ => none

/-- Key for navigating a JSON structure (secrets/mod.rs JsonPathKey). -/
inductive JsonPathKey where
  | field (f : String) : JsonPathKey
  | index (i : Nat) : JsonPathKey
  deriving DecidableEq, Repr

/-- One secret reference found in a setting value. -/
structure SecretUsage where
  path : String
  key : String
  value_path : List JsonPathKey
  deriving Repr

/-- parse_secret_ref — split at the first colon; a reference without a
colon is an InvalidSecretReference error. -/
def parse_secret_ref (reference : String) : Option (String × String) :=
  split2 reference ":"

/-- Recognize the sentinel object: exactly one field, named $secret, whose
value is a string. -/
def secret_ref? (fields : List (String × Json)) : Option String :=
  match fields with
  | [(k, .str s)] => if k = "$secret" then some s else none
  | _ => none

mutual

/-- find_secrets_recursive — walk the value, collecting a SecretUsage with
the current path for every sentinel object; a malformed reference aborts
the whole walk with an error. -/
def findSecrets : Json → List JsonPathKey → Option (List SecretUsage)
  | .obj fields, path =>
      match secret_ref? fields with
      | some r =>
          match parse_secret_ref r with
          | some pk => some [⟨pk.1, pk.2, path⟩]
          | none => none
      | none => findSecretsFields fields path
  | .arr items, path => findSecretsItems items 0 path
  | _, _ => some []

/-- Object-field leg of the walk. -/
def findSecretsFields : List (String × Json) → List JsonPathKey → Option (List SecretUsage)
  | [], _ => some []
  | (f, v) :: rest, path =>
      match findSecrets v (path ++ [.field f]) with
      | none => none
      | some us =>
          match findSecretsFields rest path with
          | none => none
          | some more => some (us ++ more)

/-- Array leg of the walk, tracking the element index. -/
def findSecretsItems : List Json → Nat → List JsonPathKey → Option (List SecretUsage)
  | [], _, _ => some []
  | v :: rest, i, path =>
      match findSecrets v (path ++ [.index i]) with
      | none => none
      | some us =>
          match findSecretsItems rest (i + 1) path with
          | none => none
          | some more => some (us ++ more)

end

/-- find_secret_usages — entry point of the walk. -/
def find_secret_usages (value : Json) : Option (List SecretUsage) :=
  findSecrets value []

/-- Replace the value of field f in an object field list, or append it
(serde_json Map::insert keeps the position of an existing key). -/
def insertField : List (String × Json) → String → Json → List (String × Json)
  | [], f, v => [(f, v)]
  | (k, w) :: rest, f, v =>
      if k = f then (k, v) :: rest else (k, w) :: insertField rest f v

/-- Final step of set_at_path: write the value under the last path key. -/
def setFinal (root : Json) (k : JsonPathKey) (v : Json) : Option Json :=
  match k, root with
  | .field f, .obj fields => some (.obj (insertField fields f v))
  | .index i, .arr items =>
      if i < items.length then some (.arr (items.set i v)) else none
  | _, _ => none

/-- set_at_path — navigate to the parent of the target (get_mut chain; a
missing field, bad index or kind mismatch is an InvalidSecretPath error)
and write the value at the final key. -/
def set_at_path (root : Json) : List JsonPathKey → Json → Option Json
  | [], v => some v
  | [k], v => setFinal root k v
  | k :: rest, v =>
      match k, root with
      | .field f, .obj fields =>
          match assocGet fields f with
          | none => none
          | some child =>
              (set_at_path child rest v).map (fun c2 => .obj (insertField fields f c2))
      | .index i, .arr items =>
          match items.get? i with
          | none => none
          | some child =>
              (set_at_path child rest v).map (fun c2 => .arr (items.set i c2))
      | _, _ => none

/-- Secret broker state.  The Vault client and its HTTP fetch are external:
fetch is the outcome of kv_read_raw for this call (none = transport error).
The cache insertion performed on a miss is omitted — it never changes the
value returned by the call that performed it. -/
structure SecretsService where
  hasClient : Bool
  cache : List (String × Json)
  fetch : String → Option Json
  version : Nat

/-- SecretsService::get_sync — fast path over the cache (a cached path
whose object lacks the key is a SecretKeyNotFound error); on a miss, the
blocking bridge into async get: no client is an error, then fetch and
read the key out of the fetched secret. -/
def SecretsService.get_sync (s : SecretsService) (path key : String) : Option Json :=
  match assocGet s.cache path with
  | some cached => cached.objGet key
  | none =>
      if s.hasClient then
        match s.fetch path with
        | some secret => secret.objGet key
        | none => none
      else none

/-- resolve_secrets_sync — clone the value and splice every secret in at
its pre-computed path; any broker or path error aborts. -/
def resolve_secrets_sync (value : Json) (usages : List SecretUsage)
    (secrets : SecretsService) : Option Json :=
  if usages.isEmpty then some value
  else
    usages.foldlM
      (fun acc u =>
        match secrets.get_sync u.path u.key with
        | none => none
        | some sv => set_at_path acc u.value_path sv)
      value

/-- Raw setting as deserialized from JSON (entities.rs RawSetting). -/
structure RawSetting where
  key : String
  priority : Int
  filter : List (String × String)
  value : Json

/-- Compiled setting.  The typed cache keyed by TypeId becomes an
association list from a numeric type tag to values of the model type α;
cached_at_version is the AtomicU64 epoch. -/
structure Setting (α : Type _) where
  key : String
  priority : Int
  value : Json
  static_filters : List CompiledStaticFilter
  dynamic_filters : List CompiledDynamicFilter
  value_cache : List (Nat × α)
  secrets_usages : List SecretUsage
  cached_at_version : Nat

/-- Association-list lookup with Nat keys (DashMap::get by TypeId). -/
def cacheGet {α : Type _} (l : List (Nat × α)) (tid : Nat) : Option α :=
  (l.find? (fun kv => kv.1 == tid)).map (fun kv => kv.2)

/-- Filter-compilation loop of Setting::compile: static names compile or
fail the whole entry; other names try the dynamic factory and silently
drop the filter when it errors (unknown name or bad pattern alike). -/
def compileFilters (E : Ext) :
    List (String × String) → Option (List CompiledStaticFilter × List CompiledDynamicFilter)
  | [] => some ([], [])
  | (name, pattern) :: rest =>
      match compileFilters E rest with
      | none => none
      | some (ss, ds) =>
          if is_static_filter name then
            match compile_static_filter E name pattern with
            | none => none
            | some f => some (f :: ss, ds)
          else
            match compile_dynamic_filter E name pattern with
            | some f => some (ss, f :: ds)
            | none => some (ss, ds)

/-- Setting::compile — compile the filters, collect the secret usages,
start with an empty typed cache at epoch 0. -/
def Setting.compile {α : Type _} (E : Ext) (raw : RawSetting) : Option (Setting α) :=
  match compileFilters E raw.filter with
  | none => none
  | some (ss, ds) =>
      match find_secret_usages raw.value with
      | none => none
      | some us =>
          some ⟨raw.key, raw.priority, raw.value, ss, ds, [], us, 0⟩

/-- Setting::has_secrets. -/
def Setting.has_secrets {α : Type _} (s : Setting α) : Bool :=
  !s.secrets_usages.isEmpty

/-- Setting::invalidate_if_stale — clear the typed cache and adopt the
broker epoch when they differ. -/
def Setting.invalidate_if_stale {α : Type _} (s : Setting α) (secrets_version : Nat) :
    Setting α :=
  if s.cached_at_version ≠ secrets_version then
    { s with value_cache := [], cached_at_version := secrets_version }
  else s

/-- Setting::check_static_filters — conjunction over the compiled static
filters (only reachable from tests; the production merge path uses the
free check_static_filters instead). -/
def Setting.check_static_filters {α : Type _} (s : Setting α) (ctx : StaticContext) : Bool :=
  s.static_filters.all (fun f => f.check ctx)

/-- Setting::check_dynamic_filters — conjunction over the compiled dynamic
filters. -/
def Setting.check_dynamic_filters {α : Type _} (s : Setting α) (ctx : DynamicContext) : Bool :=
  s.dynamic_filters.all (fun f => f.check ctx)

/-- Setting::get_value — cache hit returns the cached value; otherwise
resolve secrets (failure: warn and return none), deserialize through des
(failure: warn and return none) and insert into the cache.  The returned
Setting carries the cache mutation. -/
def Setting.get_value {α : Type _} (tid : Nat) (des : Json → Option α)
    (s : Setting α) (secrets : SecretsService) : Option α × Setting α :=
  match cacheGet s.value_cache tid with
  | some v => (some v, s)
  | none =>
      let resolved? :=
        if s.has_secrets then resolve_secrets_sync s.value s.secrets_usages secrets
        else some s.value
      match resolved? with
      | none => (none, s)
      | some resolved =>
          match des resolved with
          | none => (none, s)
          | some v => (some v, { s with value_cache := (tid, v) :: s.value_cache })

/-- Identifier of a deletion record. -/
structure SettingKey where
  key : String
  priority : Int

/-- Provider response: new/updated raw settings, deletion records, and a
version cursor. -/
structure ProviderResponse where
  settings : List RawSetting
  deleted : List SettingKey
  version : String

/-- Internal state of RuntimeSettings: version cursor and the per-key
priority-sorted lists of compiled settings (HashMap as association list). -/
structure SettingsState (α : Type _) where
  version : String
  settings : List (String × List (Setting α))

/-- Default state: version "0", empty store. -/
def SettingsState.init {α : Type _} : SettingsState α :=
  ⟨"0", []⟩

/-- The per-setting read step of get_internal: invalidate-if-stale when
the setting holds secrets, then get_value.  The cache mutations that the
source applies through interior mutability are returned as the second
component. -/
def settingRead {α : Type _} (tid : Nat) (des : Json → Option α)
    (s : Setting α) (secrets : SecretsService) : Option α × Setting α :=
  let s2 := if s.has_secrets then s.invalidate_if_stale secrets.version else s
  s2.get_value tid des secrets

/-- The scan of get_internal over one key's settings list: the first
setting whose dynamic filters match is selected — its secret-epoch check
runs and its value is returned (even when that value fails to
materialize); no later entry is tried. -/
def scanSettings {α : Type _} (tid : Nat) (des : Json → Option α)
    (secrets : SecretsService) (ctx : DynamicContext) :
    List (Setting α) → Option α
  | [] => none
  | s :: rest =>
      if s.check_dynamic_filters ctx then (settingRead tid des s secrets).1
      else scanSettings tid des secrets ctx rest

/-- RuntimeSettings::get_internal — look the key up (absent key: none),
then scan the sorted list for the first dynamic match. -/
def get_internal {α : Type _} (tid : Nat) (des : Json → Option α)
    (state : SettingsState α) (secrets : SecretsService)
    (key : String) (ctx : DynamicContext) : Option α :=
  match assocGet state.settings key with
  | none => none
  | some settings => scanSettings tid des secrets ctx settings

/-- RuntimeSettings::get — get_internal under the ambient dynamic context;
the scoped-storage channels are modelled by passing the context explicitly. -/
def rsGet {α : Type _} (tid : Nat) (des : Json → Option α)
    (state : SettingsState α) (secrets : SecretsService)
    (key : String) (ctx : DynamicContext) : Option α :=
  get_internal tid des state secrets key ctx

/-- RuntimeSettings::get_or — get with unwrap_or_else on the default. -/
def get_or {α : Type _} (tid : Nat) (des : Json → Option α)
    (state : SettingsState α) (secrets : SecretsService)
    (key : String) (ctx : DynamicContext) (dflt : α) : α :=
  (rsGet tid des state secrets key ctx).getD dflt

/-- One deletion record: retain every setting of that key whose priority
differs; other keys keep their pairs untouched. -/
def apply_deleted_one {α : Type _} (settings : List (String × List (Setting α)))
    (d : SettingKey) : List (String × List (Setting α)) :=
  settings.map (fun kl =>
    if kl.1 = d.key then (kl.1, kl.2.filter (fun s => s.priority != d.priority))
    else kl)

/-- Vec::insert at a position known to be at most the length. -/
def listInsertAt {β : Type _} : Nat → β → List β → List β
  | 0, a, l => a :: l
  | _ + 1, a, [] => [a]
  | n + 1, a, x :: xs => x :: listInsertAt n a xs

/-- Insertion step of merge_settings: position of the first entry of lower
priority (or the end), then insert there. -/
def insert_at_priority {α : Type _} (l : List (Setting α)) (s : Setting α) :
    List (Setting α) :=
  listInsertAt (l.findIdx (fun x => x.priority < s.priority)) s l

/-- Add-or-update of merge_settings for one compiled setting: ensure the
key has a (possibly empty) list, drop any entry of equal priority, insert
in descending-priority position. -/
def store_upsert {α : Type _} (settings : List (String × List (Setting α)))
    (s : Setting α) : List (String × List (Setting α)) :=
  let settings :=
    if (assocGet settings s.key).isSome then settings else settings ++ [(s.key, [])]
  settings.map (fun kl =>
    if kl.1 = s.key then
      (kl.1, insert_at_priority (kl.2.filter (fun x => x.priority != s.priority)) s)
    else kl)

/-- Per-raw-setting step of merge_settings: a static-filter miss removes
any same-(key, priority) entry and skips; a compile failure skips with a
warning; otherwise add-or-update. -/
def merge_one {α : Type _} (E : Ext) (sctx : StaticContext)
    (settings : List (String × List (Setting α))) (raw : RawSetting) :
    List (String × List (Setting α)) :=
  if !(check_static_filters E raw.filter sctx) then
    apply_deleted_one settings ⟨raw.key, raw.priority⟩
  else
    match Setting.compile (α := α) E raw with
    | none => settings
    | some s => store_upsert settings s

/-- RuntimeSettings::merge_settings — deletions first, then the incoming
settings, then the version cursor when non-empty. -/
def merge_settings {α : Type _} (E : Ext) (sctx : StaticContext)
    (state : SettingsState α) (resp : ProviderResponse) : SettingsState α :=
  let s1 := resp.deleted.foldl (fun acc d => apply_deleted_one acc d) state.settings
  let s2 := resp.settings.foldl (fun acc raw => merge_one E sctx acc raw) s1
  ⟨if resp.version = "" then state.version else resp.version, s2⟩

/-- RuntimeSettings::collect_current_values — for every key, the raw JSON
value of the first setting whose dynamic filters match the ambient
context; keys with no match are omitted.  Neither the secret broker nor
the typed cache is consulted. -/
def collect_current_values {α : Type _} (state : SettingsState α)
    (ctx : DynamicContext) : List (String × Json) :=
  state.settings.filterMap (fun kl =>
    (kl.2.find? (fun s => s.check_dynamic_filters ctx)).map (fun s => (kl.1, s.value)))

/-- HashMap::insert on the association list: replace in place or append. -/
def assocInsert {β : Type _} : List (String × β) → String → β → List (String × β)
  | [], key, v => [(key, v)]
  | (k, w) :: rest, key, v =>
      if k = key then (k, v) :: rest else (k, w) :: assocInsert rest key v

/-- HashMap::remove on the association list. -/
def assocErase {β : Type _} (l : List (String × β)) (key : String) :
    List (String × β) :=
  l.filter (fun kv => kv.1 != key)

/-- Equality test on optional Json values (old_value != new_value). -/
def optJsonBeq : Option Json → Option Json → Bool
  | none, none => true
  | some a, some b => Json.beq a b
  | _, _ => false

/-- One watched key of WatchersService::check: compare the snapshot value
with the current one; on a change, record the (key, old, new)
notification handed to that key's callbacks and update the snapshot
(insert the new value, or remove the key when the current value is
absent). -/
def watchersStep (current : List (String × Json))
    (acc : List (String × Option Json × Option Json) × List (String × Json))
    (key : String) :
    List (String × Option Json × Option Json) × List (String × Json) :=
  if optJsonBeq (assocGet acc.2 key) (assocGet current key) then acc
  else
    (acc.1 ++ [(key, assocGet acc.2 key, assocGet current key)],
     match assocGet current key with
     | some v => assocInsert acc.2 key v
     | none => assocErase acc.2 key)

/-- WatchersService::check, restricted to its observable diff over the
watched keys.  Returns the notifications and the new snapshot. -/
def watchers_check (watchedKeys : List String)
    (snapshot current : List (String × Json)) :
    List (String × Option Json × Option Json) × List (String × Json) :=
  watchedKeys.foldl (watchersStep current) ([], snapshot)

/-
  Concrete instantiations of the external oracles, used to evaluate the
  model on concrete inputs.
-/

/-- An engine on which every pattern compiles, matching by literal
equality. -/
def extEq : Ext :=
  ⟨fun p => some ⟨fun s => p == s⟩, fun _ => some ⟨true⟩, fun _ => some ⟨1, 0, 0⟩⟩

/-- An engine on which every pattern fails to compile (e.g. an unbalanced
group such as an unmatched opening parenthesis). -/
def extFail : Ext :=
  ⟨fun _ => none, fun _ => none, fun _ => none⟩

/-- A secret broker with no Vault client configured. -/
def noVault : SecretsService :=
  ⟨false, [], fun _ => none, 0⟩

/-
  Association-list lemmas.
-/

theorem assocGet_append {β : Type _} (a b : List (String × β)) (k : String) :
    assocGet (a ++ b) k = ((assocGet a k).orElse (fun _ => assocGet b k)) := by
  induction a with
  | nil => simp [assocGet]
  | cons hd tl ih =>
      by_cases h : hd.1 == k
      · simp [assocGet, List.find?, h]
      · simp only [List.cons_append, assocGet, List.find?] at ih ⊢
        simp only [h]
        exact ih

theorem assocGet_eq_none_forall {β : Type _} (l : List (String × β)) (k : String)
    (h : assocGet l k = none) : ∀ kv ∈ l, (kv.1 == k) = false := by
  intro kv hkv
  have hfind : l.find? (fun kv => kv.1 == k) = none := by
    unfold assocGet at h
    cases hf : l.find? (fun kv => kv.1 == k) with
    | none => rfl
    | some v => simp [hf] at h
  simpa using List.find?_eq_none.mp hfind kv hkv

theorem assocGet_filter_layer (layer current : List (String × String)) (k : String)
    (h : assocGet layer k = none) :
    assocGet (current.filter (fun kv => !(layer.any (fun kv2 => kv2.1 == kv.1)))) k
      = assocGet current k := by
  induction current with
  | nil => rfl
  | cons hd tl ih =>
      by_cases hk : hd.1 == k
      · have hk2 : hd.1 = k := by simpa using hk
        have hany : layer.any (fun kv2 => kv2.1 == hd.1) = false := by
          rw [List.any_eq_false]
          intro kv2 hkv2
          have := assocGet_eq_none_forall layer k h kv2 hkv2
          simpa [hk2] using this
        simp [List.filter, hany, assocGet, List.find?, hk]
      · by_cases hmem : layer.any (fun kv2 => kv2.1 == hd.1)
        · simp only [List.filter, hmem, Bool.not_true]
          simp only [assocGet, List.find?, hk] at ih ⊢
          exact ih
        · simp only [List.filter, Bool.not_eq_true] at hmem ⊢
          simp only [hmem, Bool.not_false]
          simp only [assocGet, List.find?, hk] at ih ⊢
          exact ih

/-
  C7 — CustomContext layering.
-/

/-- C7: push_layer produces a top snapshot in which the new layer wins and
the remaining bindings of the previous top survive (get on the pushed
context is the layer lookup, falling back to the previous get);
pop_layer discards exactly the pushed snapshot; and the concrete
push/push/pop/pop scenario reads "b", then "a", then nothing. -/
theorem custom_context_layering (c : CustomContext) (layer : List (String × String))
    (k : String) :
    ((c.push_layer layer).get k = ((assocGet layer k).orElse (fun _ => c.get k)))
    ∧ (c.push_layer layer).pop_layer = c
    ∧ ((CustomContext.new.push_layer [(k, "a")]).push_layer [(k, "b")]).get k = some "b"
    ∧ (((CustomContext.new.push_layer [(k, "a")]).push_layer [(k, "b")]).pop_layer).get k
        = some "a"
    ∧ ((((CustomContext.new.push_layer [(k, "a")]).push_layer [(k, "b")]).pop_layer).pop_layer).get k
        = none := by
  refine ⟨?_, ?_, ?_, ?_, ?_⟩
  · cases c with
    | mk snaps =>
        cases snaps with
        | nil =>
            simp only [CustomContext.push_layer, CustomContext.get, List.head?]
            cases h : assocGet layer k <;> simp [Option.orElse, h]
        | cons cur rest =>
            simp only [CustomContext.push_layer, CustomContext.get, List.head?,
              Option.bind]
            rw [assocGet_append]
            cases h : assocGet layer k with
            | some v => simp [Option.orElse, h]
            | none => simp [Option.orElse, h, assocGet_filter_layer layer cur k h]
  · cases c with
    | mk snaps =>
        cases snaps with
        | nil => rfl
        | cons cur rest => simp [CustomContext.push_layer, CustomContext.pop_layer]
  · simp [CustomContext.new, CustomContext.push_layer, CustomContext.get, assocGet,
      List.find?]
  · simp [CustomContext.new, CustomContext.push_layer, CustomContext.pop_layer,
      CustomContext.get, assocGet, List.find?]
  · rfl

/-
  C8 — request-derived dynamic filters pass on absent signals.
-/

/-- C8: the url-path, host, email, ip and header filters all pass when no
request is in scope; host, email and ip also pass when a request is
present but lacks the corresponding header; and with a request present
the url-path filter matches exactly when its compiled regex matches the
request path. -/
theorem dynamic_absence_passes (re : RegexC) (conds : List (String × RegexC))
    (cc : CustomContext) (req : Request) (m p : String) (hs : List (String × String)) :
    ((CompiledDynamicFilter.urlPath re).check ⟨none, cc⟩ = true
      ∧ (CompiledDynamicFilter.host re).check ⟨none, cc⟩ = true
      ∧ (CompiledDynamicFilter.email re).check ⟨none, cc⟩ = true
      ∧ (CompiledDynamicFilter.ip re).check ⟨none, cc⟩ = true
      ∧ (CompiledDynamicFilter.header conds).check ⟨none, cc⟩ = true)
    ∧ (req.host = none → (CompiledDynamicFilter.host re).check ⟨some req, cc⟩ = true)
    ∧ (req.email = none → (CompiledDynamicFilter.email re).check ⟨some req, cc⟩ = true)
    ∧ (req.ip = none → (CompiledDynamicFilter.ip re).check ⟨some req, cc⟩ = true)
    ∧ (CompiledDynamicFilter.urlPath re).check ⟨some ⟨m, p, hs⟩, cc⟩ = re.isMatch p := by
  refine ⟨⟨rfl, rfl, rfl, rfl, rfl⟩, ?_, ?_, ?_, rfl⟩
  · intro h
    simp [CompiledDynamicFilter.check, h]
  · intro h
    simp [CompiledDynamicFilter.check, h]
  · intro h
    simp [CompiledDynamicFilter.check, h]

/-- Witness for C8: a request with no headers lacks host, email and ip, so
all three filters pass even with a never-matching regex. -/
theorem dynamic_absence_passes_witness :
    (CompiledDynamicFilter.host ⟨fun _ => false⟩).check
        ⟨some ⟨"GET", "/x", []⟩, CustomContext.new⟩ = true
    ∧ (CompiledDynamicFilter.email ⟨fun _ => false⟩).check
        ⟨some ⟨"GET", "/x", []⟩, CustomContext.new⟩ = true
    ∧ (CompiledDynamicFilter.ip ⟨fun _ => false⟩).check
        ⟨some ⟨"GET", "/x", []⟩, CustomContext.new⟩ = true :=
  ⟨(dynamic_absence_passes ⟨fun _ => false⟩ [] CustomContext.new ⟨"GET", "/x", []⟩
      "GET" "/x" []).2.1 rfl,
   (dynamic_absence_passes ⟨fun _ => false⟩ [] CustomContext.new ⟨"GET", "/x", []⟩
      "GET" "/x" []).2.2.1 rfl,
   (dynamic_absence_passes ⟨fun _ => false⟩ [] CustomContext.new ⟨"GET", "/x", []⟩
      "GET" "/x" []).2.2.2.1 rfl⟩

theorem assocGet_cons_self {β : Type _} (k0 : String) (v0 : β) (tl : List (String × β)) :
    assocGet ((k0, v0) :: tl) k0 = some v0 := by
  simp [assocGet, List.find?]

theorem assocGet_cons_of_ne {β : Type _} (k0 : String) (v0 : β) (tl : List (String × β))
    (key : String) (h : ¬(k0 = key)) :
    assocGet ((k0, v0) :: tl) key = assocGet tl key := by
  have hb : (k0 == key) = false := by simpa using h
  simp [assocGet, List.find?, hb]

theorem assocGet_map_if {β : Type _} (s : List (String × β)) (target key : String)
    (g : β → β) :
    assocGet (s.map (fun kl => if kl.1 = target then (kl.1, g kl.2) else kl)) key
      = if key = target then (assocGet s key).map g else assocGet s key := by
  induction s with
  | nil => by_cases h : key = target <;> simp [assocGet, h]
  | cons hd tl ih =>
      obtain ⟨k0, v0⟩ := hd
      simp only [List.map_cons]
      by_cases h2 : k0 = target
      · subst h2
        by_cases h1 : k0 = key
        · subst h1
          simp [eq_self_iff_true, if_true, assocGet_cons_self]
        · have hkey : ¬(key = k0) := fun h => h1 h.symm
          simp only [eq_self_iff_true, if_true, if_neg hkey] at ih ⊢
          rw [assocGet_cons_of_ne _ _ _ _ h1, assocGet_cons_of_ne _ _ _ _ h1]
          exact ih
      · simp only [if_neg h2]
        by_cases h1 : k0 = key
        · subst h1
          have hkt : ¬(k0 = target) := h2
          rw [if_neg hkt, assocGet_cons_self, assocGet_cons_self]
        · rw [assocGet_cons_of_ne _ _ _ _ h1, assocGet_cons_of_ne _ _ _ _ h1]
          exact ih

/-
  C9 — a deletion record removes exactly the (key, priority) entry.
-/

/-- C9: applying one deletion record keeps every key association intact
except the deleted key, whose list loses exactly the entries of the
deleted priority; every other key's list is returned unchanged. -/
theorem delete_removes_exactly {α : Type _} (settings : List (String × List (Setting α)))
    (d : SettingKey) (key : String) :
    assocGet (apply_deleted_one settings d) key
      = if key = d.key then
          (assocGet settings key).map
            (fun l => l.filter (fun s => s.priority != d.priority))
        else assocGet settings key := by
  have h := assocGet_map_if settings d.key key
    (fun l => l.filter (fun s => s.priority != d.priority))
  simpa [apply_deleted_one] using h

/-
  C1 — mcs_run_env with an absent process value, on the real merge path.
-/

/-- A static context whose mcs_run_env is absent. -/
def sctxNoEnv : StaticContext := ⟨"app", "server", [], [], none⟩

/-- A raw setting guarded by an mcs_run_env filter. -/
def rawMcs : RawSetting := ⟨"FEATURE", 100, [("mcs_run_env", "PROD")], .str "enabled"⟩

/-- A provider response carrying only rawMcs. -/
def respMcs : ProviderResponse := ⟨[rawMcs], [], "1"⟩

/-- C1 (code behaviour at the failing input): with process mcs_run_env
absent, the merge-path filter check passes the entry (the trait filter
answers NotApplicable, which check_static_filters treats as a match), so
the entry is stored and get returns its value — even though the compiled
mcs_run_env filter attached to the very same entry answers false for this
static context, as its documentation and tests demand.  The compiled
static filters are never consulted on the merge or read paths. -/
theorem mcs_run_env_absent_code_behavior :
    check_static_filters extEq rawMcs.filter sctxNoEnv = true
    ∧ static_filter_check extEq "mcs_run_env" "PROD" sctxNoEnv = FilterResult.NotApplicable
    ∧ (Setting.compile (α := Json) extEq rawMcs).map
        (fun s => s.check_static_filters sctxNoEnv) = some false
    ∧ get_internal 0 some (merge_settings extEq sctxNoEnv SettingsState.init respMcs)
        noVault "FEATURE" ⟨none, CustomContext.new⟩ = some (Json.str "enabled") :=
  ⟨rfl, rfl, rfl, rfl⟩

/-
  C2 — what a pattern-compilation failure does to the entry.
-/

/-- Counterexample to C2 as stated: "url-path" is a recognized dynamic
filter name and its pattern fails to compile on this engine, yet
Setting::compile keeps the entry (with the failed filter silently
discarded) instead of dropping it. -/
theorem dynamic_pattern_failure_keeps_entry :
    DYNAMIC_FILTER_NAMES.contains "url-path" = true
    ∧ compile_dynamic_filter extFail "url-path" "(" = none
    ∧ Setting.compile (α := Json) extFail ⟨"KEY", 100, [("url-path", "(")], .str "v"⟩
        = some ⟨"KEY", 100, .str "v", [], [], [], [], 0⟩ :=
  ⟨rfl, rfl, rfl⟩

theorem compileFilters_none_iff (E : Ext) (fs : List (String × String)) :
    compileFilters E fs = none ↔
      ∃ np ∈ fs, is_static_filter np.1 = true ∧ compile_static_filter E np.1 np.2 = none := by
  induction fs with
  | nil => simp [compileFilters]
  | cons np rest ih =>
      obtain ⟨name, pattern⟩ := np
      cases hrest : compileFilters E rest with
      | none =>
          have hL : compileFilters E ((name, pattern) :: rest) = none := by
            rw [compileFilters, hrest]
          rw [hL]
          simp only [true_iff]
          rcases ih.mp hrest with ⟨np2, hmem, hst, hc⟩
          exact ⟨np2, List.mem_cons_of_mem _ hmem, hst, hc⟩
      | some pair =>
          obtain ⟨ss, ds⟩ := pair
          have hrestne : ¬ ∃ np2 ∈ rest, is_static_filter np2.1 = true
              ∧ compile_static_filter E np2.1 np2.2 = none := by
            intro hex
            exact Option.noConfusion ((ih.mpr hex).symm.trans hrest)
          by_cases hstat : is_static_filter name = true
          · cases hc : compile_static_filter E name pattern with
            | none =>
                have hL : compileFilters E ((name, pattern) :: rest) = none := by
                  rw [compileFilters, hrest]
                  simp [hstat, hc]
                rw [hL]
                simp only [true_iff]
                exact ⟨(name, pattern), List.mem_cons_self _ _, hstat, hc⟩
            | some f =>
                have hL : compileFilters E ((name, pattern) :: rest) = some (f :: ss, ds) := by
                  rw [compileFilters, hrest]
                  simp [hstat, hc]
                rw [hL]
                constructor
                · intro h
                  exact Option.noConfusion h
                · rintro ⟨np2, hmem, hst, hc2⟩
                  rcases List.mem_cons.mp hmem with heq | hmem2
                  · subst heq
                    have hc2b : compile_static_filter E name pattern = none := hc2
                    exact Option.noConfusion (hc.symm.trans hc2b)
                  · exact absurd ⟨np2, hmem2, hst, hc2⟩ hrestne
          · have hL : ∃ out, compileFilters E ((name, pattern) :: rest) = some out := by
              rw [compileFilters, hrest]
              simp only [hstat, if_false]
              cases compile_dynamic_filter E name pattern <;> exact ⟨_, rfl⟩
            rcases hL with ⟨out, hL⟩
            rw [hL]
            constructor
            · intro h
              exact Option.noConfusion h
            · rintro ⟨np2, hmem, hst, hc2⟩
              rcases List.mem_cons.mp hmem with heq | hmem2
              · subst heq
                have hstb : is_static_filter name = true := hst
                exact absurd hstb hstat
              · exact absurd ⟨np2, hmem2, hst, hc2⟩ hrestne

/-- C2 amended: an entry is dropped during compilation exactly when a
recognized static filter's pattern fails to compile or the value holds a
malformed secret reference.  Unrecognized filter names never drop the
entry, and neither does a recognized dynamic filter whose pattern fails
to compile — that filter alone is silently discarded and the entry is
kept. -/
theorem compile_drop_characterization {α : Type _} (E : Ext) (raw : RawSetting) :
    Setting.compile (α := α) E raw = none ↔
      ((∃ np ∈ raw.filter, is_static_filter np.1 = true
          ∧ compile_static_filter E np.1 np.2 = none)
        ∨ find_secret_usages raw.value = none) := by
  cases hf : compileFilters E raw.filter with
  | none =>
      have hL : Setting.compile (α := α) E raw = none := by
        rw [Setting.compile, hf]
      rw [hL]
      simp only [true_iff]
      exact Or.inl ((compileFilters_none_iff E raw.filter).mp hf)
  | some pair =>
      obtain ⟨ss, ds⟩ := pair
      have hnone : ¬ ∃ np ∈ raw.filter, is_static_filter np.1 = true
          ∧ compile_static_filter E np.1 np.2 = none := by
        intro hex
        exact Option.noConfusion
          (((compileFilters_none_iff E raw.filter).mpr hex).symm.trans hf)
      cases hu : find_secret_usages raw.value with
      | none =>
          have hL : Setting.compile (α := α) E raw = none := by
            rw [Setting.compile, hf, hu]
          rw [hL]
          simp
      | some us =>
          have hL : Setting.compile (α := α) E raw
              = some ⟨raw.key, raw.priority, raw.value, ss, ds, [], us, 0⟩ := by
            rw [Setting.compile, hf, hu]
          rw [hL]
          constructor
          · intro h
            exact Option.noConfusion h
          · rintro (hex | h)
            · exact absurd hex hnone
            · exact Option.noConfusion h

/-
  C3 — priority scan of get_internal.
-/

theorem scanSettings_of_none {α : Type _} (tid : Nat) (des : Json → Option α)
    (secrets : SecretsService) (ctx : DynamicContext) (l : List (Setting α))
    (h : ∀ s ∈ l, s.check_dynamic_filters ctx = false) :
    scanSettings tid des secrets ctx l = none := by
  induction l with
  | nil => rfl
  | cons s rest ih =>
      have hs := h s (List.mem_cons_self _ _)
      simp only [scanSettings, hs]
      simp only [Bool.false_eq_true, if_false]
      exact ih (fun t ht => h t (List.mem_cons_of_mem _ ht))

theorem scanSettings_of_find {α : Type _} (tid : Nat) (des : Json → Option α)
    (secrets : SecretsService) (ctx : DynamicContext) (l : List (Setting α))
    (e : Setting α) (h : l.find? (fun s => s.check_dynamic_filters ctx) = some e) :
    scanSettings tid des secrets ctx l = (settingRead tid des e secrets).1 := by
  induction l with
  | nil => simp [List.find?] at h
  | cons s rest ih =>
      cases hc : s.check_dynamic_filters ctx with
      | true =>
          have hse : s = e := by
            simp only [List.find?, hc] at h
            exact Option.some.inj h
          subst hse
          simp [scanSettings, hc]
      | false =>
          simp only [List.find?, hc] at h
          simp only [scanSettings, hc, Bool.false_eq_true, if_false]
          exact ih h

/-- C3: get_internal returns none when the key is absent and when no
stored entry matches the dynamic context; and when the stored list is
strictly descending in priority, the value returned is the read of the
first entry (in that order) whose dynamic filters match. -/
theorem get_first_match {α : Type _} (tid : Nat) (des : Json → Option α)
    (state : SettingsState α) (secrets : SecretsService) (key : String)
    (ctx : DynamicContext) (l : List (Setting α)) (e : Setting α) :
    (assocGet state.settings key = none →
      get_internal tid des state secrets key ctx = none)
    ∧ (assocGet state.settings key = some l →
        (∀ s ∈ l, s.check_dynamic_filters ctx = false) →
        get_internal tid des state secrets key ctx = none)
    ∧ (assocGet state.settings key = some l →
        List.Pairwise (fun a b : Setting α => b.priority < a.priority) l →
        l.find? (fun s => s.check_dynamic_filters ctx) = some e →
        get_internal tid des state secrets key ctx = (settingRead tid des e secrets).1) := by
  refine ⟨?_, ?_, ?_⟩
  · intro h
    simp [get_internal, h]
  · intro h hall
    simp only [get_internal, h]
    exact scanSettings_of_none tid des secrets ctx l hall
  · intro h hsorted hfind
    simp only [get_internal, h]
    exact scanSettings_of_find tid des secrets ctx l e hfind

/-- Two-priority store used to evaluate the scan at a concrete input. -/
def sHi : Setting Json := ⟨"K", 100, Json.str "hi", [], [], [], [], 0⟩

/-- Low-priority sibling of sHi. -/
def sLo : Setting Json := ⟨"K", 10, Json.str "lo", [], [], [], [], 0⟩

/-- Store holding sHi and sLo under key K, descending. -/
def stTwo : SettingsState Json := ⟨"1", [("K", [sHi, sLo])]⟩

/-- Witness for C3: with two match-all entries of priorities 100 > 10 under
K, get returns the priority-100 value, and a missing key yields none. -/
theorem get_first_match_witness :
    get_internal 0 some stTwo noVault "K" ⟨none, CustomContext.new⟩ = some (Json.str "hi")
    ∧ get_internal 0 some stTwo noVault "MISSING" ⟨none, CustomContext.new⟩ = none := by
  constructor
  · have hp : List.Pairwise (fun a b : Setting Json => b.priority < a.priority) [sHi, sLo] := by
      simp [List.pairwise_cons, sHi, sLo]
    have h := (get_first_match 0 some stTwo noVault "K" ⟨none, CustomContext.new⟩
      [sHi, sLo] sHi).2.2 rfl hp rfl
    exact h.trans rfl
  · exact (get_first_match 0 some stTwo noVault "MISSING" ⟨none, CustomContext.new⟩
      [] sHi).1 rfl

/-
  C5 — secret-epoch discipline of the typed cache.
-/

/-- C5: for a setting that holds secret references, the read step consults
the pre-existing typed cache only when the setting's cache epoch equals
the broker's current epoch; when the epochs differ, invalidate_if_stale
empties the typed cache and adopts the broker epoch, and the read
proceeds on that cleared setting before any re-deserialization. -/
theorem secret_epoch_cache_discipline {α : Type _} (tid : Nat) (des : Json → Option α)
    (s : Setting α) (secrets : SecretsService) (hsec : s.secrets_usages ≠ []) :
    (s.cached_at_version = secrets.version →
      settingRead tid des s secrets = s.get_value tid des secrets)
    ∧ (s.cached_at_version ≠ secrets.version →
      s.invalidate_if_stale secrets.version
          = { s with value_cache := [], cached_at_version := secrets.version }
        ∧ settingRead tid des s secrets
            = Setting.get_value tid des
                { s with value_cache := [], cached_at_version := secrets.version } secrets) := by
  have hhs : s.has_secrets = true := by
    rw [Setting.has_secrets]
    cases hl : s.secrets_usages with
    | nil => exact absurd hl hsec
    | cons a t => rfl
  constructor
  · intro h
    simp [settingRead, hhs, Setting.invalidate_if_stale, h]
  · intro h
    have hinv : s.invalidate_if_stale secrets.version
        = { s with value_cache := [], cached_at_version := secrets.version } := by
      simp [Setting.invalidate_if_stale, h]
    exact ⟨hinv, by simp [settingRead, hhs, hinv]⟩

/-- A setting with a stale typed cache populated at epoch 5. -/
def sStale : Setting Json :=
  ⟨"S", 1, .obj [("$secret", .str "a:b")], [], [], [(0, Json.str "stale")],
    [⟨"a", "b", []⟩], 5⟩

/-- The same setting after the epoch-7 invalidation. -/
def sFresh : Setting Json :=
  ⟨"S", 1, .obj [("$secret", .str "a:b")], [], [], [], [⟨"a", "b", []⟩], 7⟩

/-- A broker at epoch 7 whose cache holds the secret. -/
def brokerSeven : SecretsService :=
  ⟨true, [("a", Json.obj [("b", Json.str "sv")])], fun _ => none, 7⟩

/-- Witness for C5: at epochs 5 ≠ 7 the stale cached value is not
returned — the read equals the read of the cleared epoch-7 setting and
yields the freshly resolved secret. -/
theorem secret_epoch_witness :
    settingRead 0 some sStale brokerSeven = Setting.get_value 0 some sFresh brokerSeven
    ∧ (settingRead 0 some sStale brokerSeven).1 = some (Json.str "sv") := by
  have h := (secret_epoch_cache_discipline 0 some sStale brokerSeven
    (by simp [sStale])).2 (by decide)
  exact ⟨h.2, rfl⟩

/-
  C6 — the read path is total: failures surface as none.
-/

/-- C6: get_or is exactly get with unwrap_or on the default (so it always
yields a value), and inside get_value both failure modes — secret
resolution returning an error and a deserialization mismatch — produce
none rather than any other outcome. -/
theorem read_path_total {α : Type _} (tid : Nat) (des : Json → Option α)
    (state : SettingsState α) (secrets : SecretsService) (key : String)
    (ctx : DynamicContext) (dflt : α) :
    get_or tid des state secrets key ctx dflt
        = (get_internal tid des state secrets key ctx).getD dflt
    ∧ (∀ s : Setting α, cacheGet s.value_cache tid = none → s.has_secrets = true →
        resolve_secrets_sync s.value s.secrets_usages secrets = none →
        (s.get_value tid des secrets).1 = none)
    ∧ (∀ (s : Setting α) (resolved : Json), cacheGet s.value_cache tid = none →
        (if s.has_secrets then resolve_secrets_sync s.value s.secrets_usages secrets
          else some s.value) = some resolved →
        des resolved = none →
        (s.get_value tid des secrets).1 = none) := by
  refine ⟨rfl, ?_, ?_⟩
  · intro s hc hs hr
    simp [Setting.get_value, hc, hs, hr]
  · intro s resolved hc hres hdes
    simp [Setting.get_value, hc, hres, hdes]

/-- A setting whose only content is an unresolvable secret reference. -/
def sSecretFail : Setting Json :=
  ⟨"S", 1, .obj [("$secret", .str "a:b")], [], [], [], [⟨"a", "b", []⟩], 0⟩

/-- A plain setting used to exhibit a deserialization mismatch. -/
def sPlain : Setting Json := ⟨"P", 1, .str "hi", [], [], [], [], 0⟩

/-- Witness for C6: with no Vault configured the secret fetch fails and
get_value yields none; a deserializer that rejects the value also yields
none. -/
theorem read_path_total_witness :
    (Setting.get_value 0 some sSecretFail noVault).1 = none
    ∧ (Setting.get_value 0 (fun _ => none) sPlain noVault).1 = (none : Option Json) :=
  ⟨(read_path_total 0 some SettingsState.init noVault "K" ⟨none, CustomContext.new⟩
      Json.null).2.1 sSecretFail rfl rfl rfl,
   (read_path_total 0 (fun _ => none) SettingsState.init noVault "K"
      ⟨none, CustomContext.new⟩ Json.null).2.2 sPlain (Json.str "hi") rfl rfl rfl⟩

/-
  C4 — every reachable store keeps strictly descending priorities.
-/

/-- Recursive form of the findIdx-and-insert step of merge_settings. -/
def insertSortedRec {α : Type _} (x : Setting α) : List (Setting α) → List (Setting α)
  | [] => [x]
  | y :: ys => if y.priority < x.priority then x :: y :: ys else y :: insertSortedRec x ys

theorem insert_at_priority_eq {α : Type _} (l : List (Setting α)) (x : Setting α) :
    insert_at_priority l x = insertSortedRec x l := by
  induction l with
  | nil => rfl
  | cons y ys ih =>
      by_cases h : y.priority < x.priority
      · simp [insert_at_priority, List.findIdx_cons, h, listInsertAt, insertSortedRec]
      · simp only [insert_at_priority, List.findIdx_cons, h, decide_False, cond_false,
          insertSortedRec, if_false, listInsertAt]
        rw [insert_at_priority] at ih
        rw [ih]

theorem mem_insertSortedRec {α : Type _} (x y : Setting α) (l : List (Setting α))
    (h : y ∈ insertSortedRec x l) : y = x ∨ y ∈ l := by
  induction l with
  | nil =>
      simp [insertSortedRec] at h
      exact Or.inl h
  | cons z zs ih =>
      by_cases hz : z.priority < x.priority
      · simp only [insertSortedRec, hz, if_true] at h
        rcases List.mem_cons.mp h with h1 | h1
        · exact Or.inl h1
        · exact Or.inr h1
      · simp only [insertSortedRec, hz, if_false] at h
        rcases List.mem_cons.mp h with h1 | h1
        · exact Or.inr (by simp [h1])
        · rcases ih h1 with h2 | h2
          · exact Or.inl h2
          · exact Or.inr (List.mem_cons_of_mem _ h2)

theorem pairwise_insertSortedRec {α : Type _} (x : Setting α) (l : List (Setting α))
    (hl : List.Pairwise (fun a b : Setting α => b.priority < a.priority) l)
    (hne : ∀ y ∈ l, y.priority ≠ x.priority) :
    List.Pairwise (fun a b : Setting α => b.priority < a.priority) (insertSortedRec x l) := by
  induction l with
  | nil => simp [insertSortedRec]
  | cons y ys ih =>
      rcases List.pairwise_cons.mp hl with ⟨hy, hys⟩
      by_cases h : y.priority < x.priority
      · simp only [insertSortedRec, h, if_true]
        refine List.pairwise_cons.mpr ⟨?_, hl⟩
        intro z hz
        rcases List.mem_cons.mp hz with h1 | h1
        · rw [h1]; exact h
        · exact lt_trans (hy z h1) h
      · simp only [insertSortedRec, h, if_false]
        refine List.pairwise_cons.mpr
          ⟨?_, ih hys (fun t ht => hne t (List.mem_cons_of_mem _ ht))⟩
        intro z hz
        rcases mem_insertSortedRec x z ys hz with h1 | h1
        · have hle : x.priority ≤ y.priority := not_lt.mp h
          have hneq : y.priority ≠ x.priority := hne y (List.mem_cons_self _ _)
          rw [h1]
          exact lt_of_le_of_ne hle (fun he => hneq he.symm)
        · exact hy z h1

/-- The store invariant: every key association is strictly decreasing in
priority. -/
def StoreSorted {α : Type _} (settings : List (String × List (Setting α))) : Prop :=
  ∀ k l, assocGet settings k = some l →
    List.Pairwise (fun a b : Setting α => b.priority < a.priority) l

theorem apply_deleted_lookup {α : Type _} (settings : List (String × List (Setting α)))
    (d : SettingKey) (key : String) :
    assocGet (apply_deleted_one settings d) key
      = if key = d.key then
          (assocGet settings key).map
            (fun l => l.filter (fun s => s.priority != d.priority))
        else assocGet settings key := by
  have h := assocGet_map_if settings d.key key
    (fun l => l.filter (fun s => s.priority != d.priority))
  simpa [apply_deleted_one] using h

theorem orElse_none_right {β : Type _} (o : Option β) :
    (o.orElse (fun _ => none)) = o := by
  cases o <;> rfl

theorem assocGet_singleton {β : Type _} (k0 : String) (v0 : β) (key : String) :
    assocGet [(k0, v0)] key = if k0 = key then some v0 else none := by
  by_cases h : k0 = key
  · subst h
    simp [assocGet_cons_self]
  · simp [assocGet_cons_of_ne _ _ _ _ h, h, assocGet]

theorem store_upsert_lookup {α : Type _} (settings : List (String × List (Setting α)))
    (x : Setting α) (k : String) :
    assocGet (store_upsert settings x) k
      = if k = x.key then
          some (insert_at_priority
            (((assocGet settings x.key).getD []).filter
              (fun y => y.priority != x.priority)) x)
        else assocGet settings k := by
  rw [store_upsert]
  cases hsome : assocGet settings x.key with
  | some l0 =>
      simp only [hsome, Option.isSome_some, if_true]
      rw [assocGet_map_if settings x.key k
        (fun l => insert_at_priority (l.filter (fun y => y.priority != x.priority)) x)]
      by_cases hk : k = x.key
      · subst hk
        simp [hsome]
      · simp [hk]
  | none =>
      simp only [hsome, Option.isSome_none, Bool.false_eq_true, if_false]
      rw [assocGet_map_if (settings ++ [(x.key, [])]) x.key k
        (fun l => insert_at_priority (l.filter (fun y => y.priority != x.priority)) x)]
      by_cases hk : k = x.key
      · subst hk
        rw [if_pos rfl, assocGet_append, hsome]
        simp [assocGet_singleton]
      · rw [if_neg hk, if_neg hk, assocGet_append, assocGet_singleton]
        have hxk : ¬(x.key = k) := fun h => hk h.symm
        rw [if_neg hxk]
        exact orElse_none_right _

theorem storeSorted_apply_deleted {α : Type _}
    (settings : List (String × List (Setting α))) (d : SettingKey)
    (h : StoreSorted settings) : StoreSorted (apply_deleted_one settings d) := by
  intro k l hl
  rw [apply_deleted_lookup] at hl
  by_cases hk : k = d.key
  · rw [if_pos hk] at hl
    cases horig : assocGet settings k with
    | none => rw [horig] at hl; exact Option.noConfusion hl
    | some l0 =>
        rw [horig] at hl
        have hl2 : l0.filter (fun s => s.priority != d.priority) = l :=
          Option.some.inj hl
        rw [← hl2]
        exact (h k l0 horig).sublist (List.filter_sublist _)
  · rw [if_neg hk] at hl
    exact h k l hl

theorem storeSorted_store_upsert {α : Type _}
    (settings : List (String × List (Setting α))) (x : Setting α)
    (h : StoreSorted settings) : StoreSorted (store_upsert settings x) := by
  intro k l hl
  rw [store_upsert_lookup] at hl
  by_cases hk : k = x.key
  · rw [if_pos hk] at hl
    have hl2 := (Option.some.inj hl).symm
    have hbase : List.Pairwise (fun a b : Setting α => b.priority < a.priority)
        (((assocGet settings x.key).getD []).filter
          (fun y => y.priority != x.priority)) := by
      cases horig : assocGet settings x.key with
      | none => simp [horig]
      | some l0 =>
          simp only [horig, Option.getD_some]
          exact (h x.key l0 horig).sublist (List.filter_sublist _)
    have hne : ∀ y ∈ ((assocGet settings x.key).getD []).filter
        (fun y => y.priority != x.priority), y.priority ≠ x.priority := by
      intro y hy
      have hmem := List.mem_filter.mp hy
      simpa using hmem.2
    rw [hl2, insert_at_priority_eq]
    exact pairwise_insertSortedRec x _ hbase hne
  · rw [if_neg hk] at hl
    exact h k l hl

theorem storeSorted_merge_one {α : Type _} (E : Ext) (sctx : StaticContext)
    (settings : List (String × List (Setting α))) (raw : RawSetting)
    (h : StoreSorted settings) : StoreSorted (merge_one E sctx settings raw) := by
  rw [merge_one]
  cases hs : check_static_filters E raw.filter sctx with
  | false =>
      simp only [Bool.not_false, if_true]
      exact storeSorted_apply_deleted settings _ h
  | true =>
      simp only [Bool.not_true, Bool.false_eq_true, if_false]
      cases hc : Setting.compile (α := α) E raw with
      | none => exact h
      | some x => exact storeSorted_store_upsert settings x h

theorem storeSorted_merge_settings {α : Type _} (E : Ext) (sctx : StaticContext)
    (st : SettingsState α) (resp : ProviderResponse)
    (h : StoreSorted st.settings) :
    StoreSorted ((merge_settings E sctx st resp).settings) := by
  have hdel : ∀ (ds : List SettingKey) (s : List (String × List (Setting α))),
      StoreSorted s → StoreSorted (ds.foldl (fun acc d => apply_deleted_one acc d) s) := by
    intro ds
    induction ds with
    | nil => intro s hs; exact hs
    | cons d rest ih => intro s hs; exact ih _ (storeSorted_apply_deleted s d hs)
  have hmrg : ∀ (rs : List RawSetting) (s : List (String × List (Setting α))),
      StoreSorted s → StoreSorted (rs.foldl (fun acc raw => merge_one E sctx acc raw) s) := by
    intro rs
    induction rs with
    | nil => intro s hs; exact hs
    | cons raw rest ih => intro s hs; exact ih _ (storeSorted_merge_one E sctx s raw hs)
  exact hmrg resp.settings _ (hdel resp.deleted st.settings h)

theorem pairwise_count_le_one {α : Type _} (l : List (Setting α))
    (h : List.Pairwise (fun a b : Setting α => b.priority < a.priority) l) (p : Int) :
    (l.filter (fun s => s.priority == p)).length ≤ 1 := by
  induction l with
  | nil => simp
  | cons y ys ih =>
      rcases List.pairwise_cons.mp h with ⟨hy, hys⟩
      by_cases hp : y.priority = p
      · have hrest : ys.filter (fun s => s.priority == p) = [] := by
          rw [List.filter_eq_nil_iff]
          intro s hs2
          have hlt := hy s hs2
          simp only [beq_iff_eq]
          intro he
          rw [he, ← hp] at hlt
          exact absurd hlt (lt_irrefl _)
        simp [List.filter_cons, hp, hrest]
      · have hpb : (y.priority == p) = false := by simpa using hp
        simp only [List.filter_cons, hpb, Bool.false_eq_true, if_false]
        exact ih hys

/-- C4: from the empty initial store, any sequence of merged provider
responses (inserts, replacements, deletions, static-filter prunes alike)
leaves every key's list strictly decreasing in priority, so each key
holds at most one entry per priority. -/
theorem merge_preserves_sorted {α : Type _} (E : Ext) (sctx : StaticContext)
    (responses : List ProviderResponse) :
    StoreSorted ((responses.foldl (fun st r => merge_settings (α := α) E sctx st r)
        SettingsState.init).settings)
    ∧ ∀ k l (p : Int),
        assocGet ((responses.foldl (fun st r => merge_settings (α := α) E sctx st r)
          SettingsState.init).settings) k = some l →
        (l.filter (fun s => s.priority == p)).length ≤ 1 := by
  have hmain : ∀ (st : SettingsState α), StoreSorted st.settings →
      StoreSorted ((responses.foldl (fun st r => merge_settings E sctx st r) st).settings) := by
    induction responses with
    | nil => intro st h; exact h
    | cons r rest ih =>
        intro st h
        exact ih _ (storeSorted_merge_settings E sctx st r h)
  have hinit : StoreSorted (SettingsState.init (α := α)).settings := by
    intro k l hl
    exact Option.noConfusion hl
  have hs := hmain SettingsState.init hinit
  refine ⟨hs, ?_⟩
  intro k l p hl
  exact pairwise_count_le_one l (hs k l hl) p

/-- Response inserting two priorities under one key, lower first. -/
def respTwoLevels : ProviderResponse :=
  ⟨[⟨"K", 10, [], .str "lo"⟩, ⟨"K", 100, [], .str "hi"⟩], [], "1"⟩

/-- Witness for C4: merging respTwoLevels into the empty store yields the
descending list [priority 100, priority 10] under K, and the invariant
theorem applies to it. -/
theorem merge_preserves_sorted_witness :
    List.Pairwise (fun a b : Setting Json => b.priority < a.priority)
      [⟨"K", 100, Json.str "hi", [], [], [], [], 0⟩,
       ⟨"K", 10, Json.str "lo", [], [], [], [], 0⟩] :=
  (merge_preserves_sorted extEq ⟨"app", "server", [], [], none⟩ [respTwoLevels]).1 "K"
    [⟨"K", 100, Json.str "hi", [], [], [], [], 0⟩,
     ⟨"K", 10, Json.str "lo", [], [], [], [], 0⟩] rfl

/-
  C10 — watcher notification values are the raw stored first-match values.
-/

theorem optMap_some {β γ : Type _} (f : β → γ) (a : β) :
    Option.map f (some a) = some (f a) := rfl

theorem optMap_none {β γ : Type _} (f : β → γ) :
    Option.map f (none : Option β) = none := rfl

theorem assocGet_collect_none {α : Type _} (ctx : DynamicContext)
    (tl : List (String × List (Setting α))) (key : String)
    (h : ∀ kv ∈ tl, ¬(kv.1 = key)) :
    assocGet (tl.filterMap (fun kl =>
      (kl.2.find? (fun s => s.check_dynamic_filters ctx)).map
        (fun s => (kl.1, s.value)))) key = none := by
  induction tl with
  | nil => rfl
  | cons hd rest ih =>
      cases hf : hd.2.find? (fun s => s.check_dynamic_filters ctx) with
      | none =>
          simp only [List.filterMap_cons, hf, optMap_none]
          exact ih (fun kv hkv => h kv (List.mem_cons_of_mem _ hkv))
      | some s =>
          simp only [List.filterMap_cons, hf, optMap_some]
          rw [assocGet_cons_of_ne _ _ _ _ (h hd (List.mem_cons_self _ _))]
          exact ih (fun kv hkv => h kv (List.mem_cons_of_mem _ hkv))

theorem collect_lookup_aux {α : Type _} (ctx : DynamicContext) (key : String) :
    ∀ (settings : List (String × List (Setting α))), keysNodup settings →
    assocGet (settings.filterMap (fun kl =>
        (kl.2.find? (fun s => s.check_dynamic_filters ctx)).map
          (fun s => (kl.1, s.value)))) key
      = (assocGet settings key).bind
          (fun l => (l.find? (fun s => s.check_dynamic_filters ctx)).map
            (fun s => s.value)) := by
  intro settings
  induction settings with
  | nil => intro h; rfl
  | cons hd tl ih =>
      intro hnd
      obtain ⟨k0, l0⟩ := hd
      have hnd0 : (k0 :: tl.map Prod.fst).Nodup := by
        simpa [keysNodup] using hnd
      have hnotin : k0 ∉ tl.map Prod.fst := (List.nodup_cons.mp hnd0).1
      have hnd2 : keysNodup tl := by
        rw [keysNodup]
        exact (List.nodup_cons.mp hnd0).2
      by_cases hk : k0 = key
      · subst hk
        cases hf : l0.find? (fun s => s.check_dynamic_filters ctx) with
        | some s =>
            simp only [List.filterMap_cons, hf, optMap_some]
            rw [assocGet_cons_self, assocGet_cons_self]
            simp [hf]
        | none =>
            simp only [List.filterMap_cons, hf, optMap_none]
            rw [assocGet_cons_self]
            rw [assocGet_collect_none ctx tl k0]
            · simp [hf]
            · intro kv hkv heq
              exact hnotin (heq ▸ List.mem_map_of_mem Prod.fst hkv)
      · cases hf : l0.find? (fun s => s.check_dynamic_filters ctx) with
        | some s =>
            simp only [List.filterMap_cons, hf, optMap_some]
            rw [assocGet_cons_of_ne _ _ _ _ hk, assocGet_cons_of_ne _ _ _ _ hk]
            exact ih hnd2
        | none =>
            simp only [List.filterMap_cons, hf, optMap_none]
            rw [assocGet_cons_of_ne _ _ _ _ hk]
            exact ih hnd2

theorem watchers_fold_invariant (current : List (String × Json)) :
    ∀ (watched : List String)
      (acc : List (String × Option Json × Option Json) × List (String × Json)),
      (∀ n ∈ acc.1, n.2.2 = assocGet current n.1) →
      ∀ n ∈ (watched.foldl (watchersStep current) acc).1,
        n.2.2 = assocGet current n.1 := by
  intro watched
  induction watched with
  | nil =>
      intro acc h n hn
      exact h n hn
  | cons key rest ih =>
      intro acc h
      simp only [List.foldl_cons]
      apply ih
      rw [watchersStep]
      by_cases hb : optJsonBeq (assocGet acc.2 key) (assocGet current key) = true
      · simp only [hb, if_true]
        exact h
      · simp only [hb, Bool.false_eq_true, if_false]
        intro n hn
        rcases List.mem_append.mp hn with hn1 | hn2
        · exact h n hn1
        · have hn3 : n = (key, assocGet acc.2 key, assocGet current key) := by
            simpa using hn2
          rw [hn3]

/-- C10: the per-key value collected for watcher notification is exactly
the raw stored JSON of the first entry whose dynamic filters match the
ambient context (the stored value verbatim — no secret resolution, no
typed cache, no broker), and every notification the watcher diff emits
carries as its new value precisely the collected value for its key. -/
theorem watcher_values_raw {α : Type _} (state : SettingsState α) (ctx : DynamicContext)
    (key : String) (watched : List String) (snapshot : List (String × Json))
    (h : keysNodup state.settings) :
    (assocGet (collect_current_values state ctx) key
      = (assocGet state.settings key).bind
          (fun l => (l.find? (fun s => s.check_dynamic_filters ctx)).map
            (fun s => s.value)))
    ∧ ∀ n ∈ (watchers_check watched snapshot (collect_current_values state ctx)).1,
        n.2.2 = assocGet (collect_current_values state ctx) n.1 := by
  constructor
  · exact collect_lookup_aux ctx key state.settings h
  · intro n hn
    exact watchers_fold_invariant (collect_current_values state ctx) watched
      ([], snapshot) (by intro n2 hn2; exact absurd hn2 (List.not_mem_nil n2)) n hn

/-- A stored entry whose value still holds a $secret sentinel. -/
def sSentinel : Setting Json :=
  ⟨"K", 100, .obj [("pass", .obj [("$secret", .str "a:b")])], [], [],
    [], [⟨"a", "b", [.field "pass"]⟩], 0⟩

/-- Store holding sSentinel under K. -/
def stSentinel : SettingsState Json := ⟨"1", [("K", [sSentinel])]⟩

/-- Witness for C10: the collected value for K is the stored raw JSON with
the $secret sentinel left in place. -/
theorem watcher_values_raw_witness :
    assocGet (collect_current_values stSentinel ⟨none, CustomContext.new⟩) "K"
      = some (Json.obj [("pass", Json.obj [("$secret", Json.str "a:b")])]) := by
  have h := (watcher_values_raw stSentinel ⟨none, CustomContext.new⟩ "K" [] []
    (by simp [keysNodup, stSentinel])).1
  exact h.trans rfl

end RS
